import Mathlib

/-!
Verification of the dual-model chat dashboard core
(`src/utils/dashboards/dual_model_chat_dashboard.py`): conversation state,
prompt builder, output extractor, legacy-history migration and the send
dispatch of the controller, embedded shallowly with the external tokenizer
and generation backend as parameters.
-/

namespace DualChat

/-- The external Tokenizer Adapter: `encode text add_special_tokens`,
`decode ids skip_special_tokens`, `applyChat text add_bos enable_thinking`
(mirroring `tokenizer.encode`, `tokenizer.decode` and
`tiny_dashboard.utils.apply_chat`). -/
structure Tokenizer where
  encode : String → Bool → List Nat
  decode : List Nat → Bool → String
  applyChat : String → Bool → Bool → String

/-- A stored per-target turn: the Python dict `{"user": ..., "assistant": ...}`,
either key possibly absent. -/
structure Turn where
  user : Option String
  assistant : Option String
deriving DecidableEq, Repr

/-- A legacy aggregated turn: the Python dict `{"user": ..., "base": ...,
"finetuned": ...}`, any key possibly absent. -/
structure LegacyTurn where
  user : Option String
  base : Option String
  finetuned : Option String
deriving DecidableEq, Repr

/-- The loop of `_build_formatted_prompt_and_user_segment` over `history`
building `prev_formatted`: for each turn assert `"user" in turn` (a missing
user is the assertion error, `none`), append the stored user segment, then the
stored assistant segment when present. -/
def prevFormatted : List Turn → Option String
  | [] => some ""
  | t :: rest =>
    match t.user with
    | none => none
    | some u =>
      match prevFormatted rest with
      | none => none
      | some s =>
        some (u ++ (match t.assistant with | some a => a | none => "") ++ s)

/-- The formatting of the new user message inside
`_build_formatted_prompt_and_user_segment`: when chat formatting is enabled,
apply the chat template to `next_user_message ++ "<eot>"` with
`add_bos = false`; otherwise the raw message unmodified. -/
def newUserSegment (tok : Tokenizer) (nextUserMessage : String)
    (useChatFormatting enableThinking : Bool) : String :=
  if useChatFormatting then
    tok.applyChat (nextUserMessage ++ "<eot>") false enableThinking
  else nextUserMessage

/-- `_build_formatted_prompt_and_user_segment`: assert the model key is
`"base"` or `"finetuned"`, reconstruct the previously formatted conversation
from stored segments without re-formatting, format the new user message once,
and return `(full_formatted, user_segment)`. -/
def buildFormattedPromptAndUserSegment (tok : Tokenizer) (history : List Turn)
    (nextUserMessage : String) (useChatFormatting enableThinking : Bool)
    (modelKey : String) : Option (String × String) :=
  if modelKey = "base" ∨ modelKey = "finetuned" then
    match prevFormatted history with
    | none => none
    | some prev =>
      some (prev ++ newUserSegment tok nextUserMessage useChatFormatting enableThinking,
        newUserSegment tok nextUserMessage useChatFormatting enableThinking)
  else none

/-- `_strip_prompt_from_output`: encode prompt and output without special
tokens, assert `len(output_ids) >= len(prompt_ids)` (otherwise the assertion
error, `none`), then decode `output_ids[len(prompt_ids):]` without stripping
special tokens. -/
def stripPromptFromOutput (tok : Tokenizer) (generatedText promptFormatted : String) :
    Option String :=
  let promptIds := tok.encode promptFormatted false
  let outputIds := tok.encode generatedText false
  if promptIds.length ≤ outputIds.length then
    some (tok.decode (outputIds.drop promptIds.length) false)
  else
    none

/-- The migration loop in `display` (lines 170-175): for each legacy turn
assert `"user" in turn`, append `{user, assistant := base}` to the base
history when `"base"` is present, and `{user, assistant := finetuned}` to the
finetuned history when `"finetuned"` is present. -/
def migrateLegacyTurns : List LegacyTurn → List Turn → List Turn →
    Option (List Turn × List Turn)
  | [], hb, hf => some (hb, hf)
  | t :: rest, hb, hf =>
    match t.user with
    | none => none
    | some u =>
      let hb2 := match t.base with
        | some b => hb ++ [⟨some u, some b⟩]
        | none => hb
      let hf2 := match t.finetuned with
        | some f => hf ++ [⟨some u, some f⟩]
        | none => hf
      migrateLegacyTurns rest hb2 hf2

/-- The migration guard in `display` (line 167): the legacy loop runs only
when the legacy key is present and both per-target histories are empty;
otherwise the histories are left as they are. -/
def displayMigration (legacyPresent : Bool) (legacy : List LegacyTurn)
    (hb hf : List Turn) : Option (List Turn × List Turn) :=
  if legacyPresent && hb.isEmpty && hf.isEmpty then
    migrateLegacyTurns legacy hb hf
  else
    some (hb, hf)

/-- One per-target leg of the send handler in `display` (lines 285-298 and
300-313): build the formatted prompt, call the generation backend (`none`
models a raised backend error), strip the echoed prompt, and only then append
the completed turn. Any failure leaves the target history untouched. -/
def sendToTarget (tok : Tokenizer) (generate : String → String → Option String)
    (target : String) (hist : List Turn) (msg : String)
    (useChatFormatting enableThinking : Bool) : Option (List Turn) :=
  match buildFormattedPromptAndUserSegment tok hist msg useChatFormatting
      enableThinking target with
  | none => none
  | some pu =>
    match generate pu.1 target with
    | none => none
    | some reply =>
      match stripPromptFromOutput tok reply pu.1 with
      | none => none
      | some asst => some (hist ++ [⟨some pu.2, some asst⟩])

/-- Python's `str.strip()` as used on the pending input: drop whitespace from
both ends. -/
def pyStrip (s : String) : String :=
  String.mk (((s.data.dropWhile Char.isWhitespace).reverse.dropWhile
    Char.isWhitespace).reverse)

/-- The session state visible after a send: both histories plus whether an
uncaught error propagated out of the handler. -/
structure SendResult where
  historyBase : List Turn
  historyFt : List Turn
  raised : Bool
deriving DecidableEq, Repr

/-- The `send_clicked` handler in `display` (lines 272-313): trim the input
and assert it non-empty, assert the send target valid, then dispatch to the
base model and afterwards to the finetuned model as selected. The base append
happens before the finetuned call, so an error raised by the finetuned leg
leaves the already-appended base turn in place. -/
def sendMessage (tok : Tokenizer) (generate : String → String → Option String)
    (hb hf : List Turn) (sendTarget rawInput : String)
    (useChatFormatting enableThinking : Bool) : SendResult :=
  if (pyStrip rawInput).length = 0 then ⟨hb, hf, true⟩
  else if sendTarget = "both" ∨ sendTarget = "base" ∨ sendTarget = "finetuned" then
    match (if sendTarget = "both" ∨ sendTarget = "base" then
        sendToTarget tok generate "base" hb (pyStrip rawInput)
          useChatFormatting enableThinking
      else some hb) with
    | none => ⟨hb, hf, true⟩
    | some hb2 =>
      if sendTarget = "both" ∨ sendTarget = "finetuned" then
        match sendToTarget tok generate "finetuned" hf (pyStrip rawInput)
            useChatFormatting enableThinking with
        | none => ⟨hb2, hf, true⟩
        | some hf2 => ⟨hb2, hf2, false⟩
      else ⟨hb2, hf, false⟩
  else ⟨hb, hf, true⟩

/-- A concrete character-level tokenizer used to instantiate the external
adapter in witnesses: one token per character. -/
def charTok : Tokenizer where
  encode s _ := s.data.map Char.toNat
  decode l _ := String.mk (l.map Char.ofNat)
  applyChat s _ _ := "[C]" ++ s

/-- A concrete backend for witnesses: echoes the prompt plus `"!"` for the
base model and raises (returns `none`) for the finetuned model. -/
def baseOnlyGen : String → String → Option String :=
  fun p target => if target = "base" then some (p ++ "!") else none

/-- A concrete backend that always raises, for witnesses. -/
def failingGen : String → String → Option String := fun _ _ => none

/-- Statement-side description of the rebuilt conversation: the in-order
concatenation of each stored turn's user segment followed by its assistant
segment, untransformed. -/
def storedConcat : List Turn → String
  | [] => ""
  | t :: rest => t.user.getD "" ++ t.assistant.getD "" ++ storedConcat rest

/-- Statement-side description for assistant-less histories: the in-order
concatenation of the user segments alone. -/
def usersConcat : List Turn → String
  | [] => ""
  | t :: rest => t.user.getD "" ++ usersConcat rest

/-- Statement-side description of the migrated base history: each legacy turn
carrying a base field becomes `{user := turn.user, assistant := turn.base}`,
in legacy order. -/
def migratedBase (legacy : List LegacyTurn) : List Turn :=
  legacy.filterMap fun t =>
    match t.user, t.base with
    | some u, some b => some ⟨some u, some b⟩
    | _, _ => none

/-- Statement-side description of the migrated finetuned history: each legacy
turn carrying a finetuned field becomes
`{user := turn.user, assistant := turn.finetuned}`, in legacy order. -/
def migratedFt (legacy : List LegacyTurn) : List Turn :=
  legacy.filterMap fun t =>
    match t.user, t.finetuned with
    | some u, some f => some ⟨some u, some f⟩
    | _, _ => none

end DualChat

namespace DualChat

/-- Helper: when every stored turn has a user segment, the rebuilt
conversation is exactly the stored-segment concatenation. -/
theorem prevFormatted_eq_storedConcat (history : List Turn)
    (h : ∀ t ∈ history, (Turn.user t).isSome) :
    prevFormatted history = some (storedConcat history) := by
  induction history with
  | nil => rfl
  | cons t rest ih =>
    obtain ⟨u, hu⟩ := Option.isSome_iff_exists.mp (h t (List.mem_cons_self t rest))
    have hrest := ih (fun x hx => h x (List.mem_cons_of_mem t hx))
    cases ha : t.assistant <;>
      simp [prevFormatted, storedConcat, hu, hrest, ha]

/-- Helper: appending a completed turn extends the rebuilt conversation by
its user and assistant segments. -/
theorem prevFormatted_snoc (history : List Turn) (p u a : String)
    (hp : prevFormatted history = some p) :
    prevFormatted (history ++ [Turn.mk (some u) (some a)]) = some (p ++ u ++ a) := by
  induction history generalizing p with
  | nil =>
    simp only [prevFormatted] at hp
    cases hp
    simp [prevFormatted, String.append_empty, String.empty_append]
  | cons t rest ih =>
    cases hu : t.user with
    | none => simp [prevFormatted, hu] at hp
    | some u0 =>
      cases hr : prevFormatted rest with
      | none => simp [prevFormatted, hu, hr] at hp
      | some s =>
        have hstep := ih s hr
        simp only [prevFormatted, hu, hr] at hp
        cases hp
        simp [prevFormatted, hu, hstep, String.append_assoc]

/-- C1: when `generated_text` encodes (without special-token injection) to at
least as many tokens as `prompt_formatted`, the extractor returns the
decoding, without stripping special tokens, of the output tokens from index
`len(prompt_tokens)` onward; when the two encodings have equal length it
returns the empty string (the adapter decodes the empty sequence to the empty
string), not an error. -/
theorem strip_prompt_returns_tail (tok : Tokenizer)
    (generatedText promptFormatted : String)
    (hlen : (tok.encode promptFormatted false).length ≤
      (tok.encode generatedText false).length)
    (hdec : tok.decode [] false = "") :
    stripPromptFromOutput tok generatedText promptFormatted =
      some (tok.decode ((tok.encode generatedText false).drop
        (tok.encode promptFormatted false).length) false) ∧
    ((tok.encode generatedText false).length =
        (tok.encode promptFormatted false).length →
      stripPromptFromOutput tok generatedText promptFormatted = some "") := by
  refine ⟨by simp [stripPromptFromOutput, hlen], ?_⟩
  intro heq
  have hnil : (tok.encode generatedText false).drop
      (tok.encode promptFormatted false).length = [] := by
    rw [← heq, List.drop_length]
  simp [stripPromptFromOutput, hlen, hnil, hdec]

/-- Witness for C1 at the character tokenizer with prompt `"ab"` and output
`"abcd"`. -/
theorem strip_prompt_returns_tail_witness :
    ((charTok.encode "ab" false).length ≤ (charTok.encode "abcd" false).length ∧
      charTok.decode [] false = "") ∧
    (stripPromptFromOutput charTok "abcd" "ab" =
        some (charTok.decode ((charTok.encode "abcd" false).drop
          (charTok.encode "ab" false).length) false) ∧
      ((charTok.encode "abcd" false).length = (charTok.encode "ab" false).length →
        stripPromptFromOutput charTok "abcd" "ab" = some "")) :=
  ⟨⟨by decide, by decide⟩,
    strip_prompt_returns_tail charTok "abcd" "ab" (by decide) (by decide)⟩

/-- C5: when `generated_text` encodes to strictly fewer tokens than
`prompt_formatted`, the extractor fails fast on its precondition assertion
and produces no output. -/
theorem strip_prompt_short_output_fails (tok : Tokenizer)
    (generatedText promptFormatted : String)
    (hlt : (tok.encode generatedText false).length <
      (tok.encode promptFormatted false).length) :
    stripPromptFromOutput tok generatedText promptFormatted = none := by
  simp [stripPromptFromOutput, Nat.not_le.mpr hlt]

/-- Witness for C5 at the character tokenizer with prompt `"ab"` and output
`"a"`. -/
theorem strip_prompt_short_output_fails_witness :
    (charTok.encode "a" false).length < (charTok.encode "ab" false).length ∧
    stripPromptFromOutput charTok "a" "ab" = none :=
  ⟨by decide, strip_prompt_short_output_fails charTok "a" "ab" (by decide)⟩

/-- C4: for a valid target and non-empty message, the builder returns
`(full_prompt, user_segment)` where `full_prompt` is the untransformed
in-order concatenation of each stored turn's user and assistant segments
followed by `user_segment`, and `user_segment` is the chat-template
formatting of the new message with the `<eot>` end-of-turn marker when chat
formatting is enabled and the raw message unmodified otherwise — formatting
is applied exactly once, to the new message only. -/
theorem build_prompt_shape (tok : Tokenizer) (history : List Turn)
    (nextUserMessage : String) (useChatFormatting enableThinking : Bool)
    (modelKey : String)
    (hkey : modelKey = "base" ∨ modelKey = "finetuned")
    (_hmsg : nextUserMessage ≠ "")
    (husers : ∀ t ∈ history, (Turn.user t).isSome) :
    buildFormattedPromptAndUserSegment tok history nextUserMessage
        useChatFormatting enableThinking modelKey =
      some (storedConcat history ++
          (if useChatFormatting then
            tok.applyChat (nextUserMessage ++ "<eot>") false enableThinking
          else nextUserMessage),
        if useChatFormatting then
          tok.applyChat (nextUserMessage ++ "<eot>") false enableThinking
        else nextUserMessage) := by
  have h := prevFormatted_eq_storedConcat history husers
  rw [buildFormattedPromptAndUserSegment, if_pos hkey, h, newUserSegment]

/-- Witness for C4 at the character tokenizer with one stored turn. -/
theorem build_prompt_shape_witness :
    (("base" : String) = "base" ∨ ("base" : String) = "finetuned") ∧
    ("m" : String) ≠ "" ∧
    (∀ t ∈ [Turn.mk (some "u1") (some "a1")], (Turn.user t).isSome) ∧
    buildFormattedPromptAndUserSegment charTok [Turn.mk (some "u1") (some "a1")]
        "m" true false "base" =
      some (storedConcat [Turn.mk (some "u1") (some "a1")] ++
          (if true then charTok.applyChat ("m" ++ "<eot>") false false else "m"),
        if true then charTok.applyChat ("m" ++ "<eot>") false false else "m") :=
  ⟨Or.inl rfl, by decide, by decide,
    build_prompt_shape charTok [Turn.mk (some "u1") (some "a1")] "m" true false
      "base" (Or.inl rfl) (by decide) (by decide)⟩

/-- Helper: on a history whose turns all have a user segment and no assistant
segment, the rebuilt conversation is the concatenation of the user segments
alone, in order. -/
theorem prevFormatted_no_assistant (history : List Turn)
    (hinc : ∀ t ∈ history, (Turn.user t).isSome ∧ Turn.assistant t = none) :
    prevFormatted history = some (usersConcat history) := by
  induction history with
  | nil => rfl
  | cons t rest ih =>
    obtain ⟨hu, ha⟩ := hinc t (List.mem_cons_self t rest)
    obtain ⟨u, hu2⟩ := Option.isSome_iff_exists.mp hu
    have hrest := ih (fun x hx => hinc x (List.mem_cons_of_mem t hx))
    simp [prevFormatted, usersConcat, hu2, ha, hrest, String.append_empty]

/-- C9: the builder accepts a history of transiently incomplete turns: for a
valid target, on any history whose turns all carry a user segment and no
assistant segment it does not fail, and the rebuilt conversation is exactly
the user segments in order. -/
theorem build_accepts_incomplete_turns (tok : Tokenizer) (history : List Turn)
    (nextUserMessage : String) (useChatFormatting enableThinking : Bool)
    (modelKey : String)
    (hkey : modelKey = "base" ∨ modelKey = "finetuned")
    (hinc : ∀ t ∈ history, (Turn.user t).isSome ∧ Turn.assistant t = none) :
    (buildFormattedPromptAndUserSegment tok history nextUserMessage
        useChatFormatting enableThinking modelKey).isSome ∧
    prevFormatted history = some (usersConcat history) := by
  have h := prevFormatted_no_assistant history hinc
  refine ⟨?_, h⟩
  rw [buildFormattedPromptAndUserSegment, if_pos hkey, h]
  rfl

/-- Witness for C9 at the character tokenizer with one assistant-less turn. -/
theorem build_accepts_incomplete_turns_witness :
    (("finetuned" : String) = "base" ∨ ("finetuned" : String) = "finetuned") ∧
    (∀ t ∈ [Turn.mk (some "u1") none],
      (Turn.user t).isSome ∧ Turn.assistant t = none) ∧
    ((buildFormattedPromptAndUserSegment charTok [Turn.mk (some "u1") none]
        "m" false false "finetuned").isSome ∧
      prevFormatted [Turn.mk (some "u1") none] =
        some (usersConcat [Turn.mk (some "u1") none])) :=
  ⟨Or.inr rfl, by decide,
    build_accepts_incomplete_turns charTok [Turn.mk (some "u1") none] "m"
      false false "finetuned" (Or.inr rfl) (by decide)⟩

/-- C3: if the builder returns `(full_prompt, user_segment)` and the
controller then appends the turn `{user := user_segment, assistant := a}`,
the conversation rebuilt by the next builder call from the stored segments
equals `full_prompt ++ a` byte for byte — the prior prompt is reproduced as a
prefix with no re-formatting of stored segments. -/
theorem append_turn_rebuilds_prior_prompt (tok : Tokenizer) (history : List Turn)
    (nextUserMessage : String) (useChatFormatting enableThinking : Bool)
    (modelKey : String) (fullPrompt userSegment a : String)
    (hbuild : buildFormattedPromptAndUserSegment tok history nextUserMessage
        useChatFormatting enableThinking modelKey = some (fullPrompt, userSegment)) :
    prevFormatted (history ++ [Turn.mk (some userSegment) (some a)]) =
      some (fullPrompt ++ a) := by
  rw [buildFormattedPromptAndUserSegment] at hbuild
  by_cases hkey : modelKey = "base" ∨ modelKey = "finetuned"
  · rw [if_pos hkey] at hbuild
    cases hp : prevFormatted history with
    | none => rw [hp] at hbuild; cases hbuild
    | some p =>
      rw [hp] at hbuild
      simp only [Option.some.injEq, Prod.mk.injEq] at hbuild
      obtain ⟨hfull, hseg⟩ := hbuild
      subst hseg
      subst hfull
      exact prevFormatted_snoc history p _ a hp
  · rw [if_neg hkey] at hbuild; cases hbuild

/-- Witness for C3 at the character tokenizer on an empty history. -/
theorem append_turn_rebuilds_prior_prompt_witness :
    buildFormattedPromptAndUserSegment charTok [] "hi" false false "base" =
      some ("hi", "hi") ∧
    prevFormatted ([] ++ [Turn.mk (some "hi") (some "ok")]) =
      some ("hi" ++ "ok") :=
  ⟨by decide,
    append_turn_rebuilds_prior_prompt charTok [] "hi" false false "base"
      "hi" "hi" "ok" (by decide)⟩

/-- C8: the builder is deterministic: two invocations over the same tokenizer
adapter with equal history, message and settings return identical
`(full_prompt, user_segment)` pairs. -/
theorem build_prompt_deterministic (tok : Tokenizer) (h1 h2 : List Turn)
    (m1 m2 : String) (c1 c2 e1 e2 : Bool) (k1 k2 : String)
    (hh : h1 = h2) (hm : m1 = m2) (hc : c1 = c2) (he : e1 = e2) (hk : k1 = k2) :
    buildFormattedPromptAndUserSegment tok h1 m1 c1 e1 k1 =
      buildFormattedPromptAndUserSegment tok h2 m2 c2 e2 k2 := by
  rw [hh, hm, hc, he, hk]

/-- Witness for C8 at the character tokenizer. -/
theorem build_prompt_deterministic_witness :
    ([Turn.mk (some "u") (some "a")] = [Turn.mk (some "u") (some "a")]) ∧
    ("m" : String) = "m" ∧ (true = true) ∧ (false = false) ∧
    ("base" : String) = "base" ∧
    buildFormattedPromptAndUserSegment charTok [Turn.mk (some "u") (some "a")]
        "m" true false "base" =
      buildFormattedPromptAndUserSegment charTok [Turn.mk (some "u") (some "a")]
        "m" true false "base" :=
  ⟨rfl, rfl, rfl, rfl, rfl,
    build_prompt_deterministic charTok [Turn.mk (some "u") (some "a")]
      [Turn.mk (some "u") (some "a")] "m" "m" true true false false
      "base" "base" rfl rfl rfl rfl rfl⟩

/-- Helper: the migration loop with accumulated histories equals the loop
from empty histories with the accumulators prepended. -/
theorem migrateLegacyTurns_acc (legacy : List LegacyTurn) (hb hf : List Turn) :
    migrateLegacyTurns legacy hb hf =
      (migrateLegacyTurns legacy [] []).map (fun r => (hb ++ r.1, hf ++ r.2)) := by
  induction legacy generalizing hb hf with
  | nil => simp [migrateLegacyTurns]
  | cons t rest ih =>
    cases hu : t.user with
    | none => simp [migrateLegacyTurns, hu]
    | some u =>
      simp only [migrateLegacyTurns, hu]
      conv_lhs => rw [ih]
      conv_rhs => rw [ih]
      cases hr : migrateLegacyTurns rest [] [] <;>
        cases hbb : t.base <;> cases hff : t.finetuned <;>
          simp [List.append_assoc]

/-- Helper: from empty accumulators, a legacy history whose turns all carry a
user field migrates to exactly the per-target mapped histories. -/
theorem migrateLegacyTurns_eq_migrated (legacy : List LegacyTurn)
    (husers : ∀ t ∈ legacy, (LegacyTurn.user t).isSome) :
    migrateLegacyTurns legacy [] [] =
      some (migratedBase legacy, migratedFt legacy) := by
  induction legacy with
  | nil => rfl
  | cons t rest ih =>
    obtain ⟨u, hu⟩ :=
      Option.isSome_iff_exists.mp (husers t (List.mem_cons_self t rest))
    have hrest := ih (fun x hx => husers x (List.mem_cons_of_mem t hx))
    simp only [migrateLegacyTurns, hu]
    rw [migrateLegacyTurns_acc, hrest]
    cases hbb : t.base <;> cases hff : t.finetuned <;>
      simp [migratedBase, migratedFt, List.filterMap_cons, hu, hbb, hff]

/-- Helper: a legacy turn missing the user field makes the migration loop
fail from any accumulators. -/
theorem migrateLegacyTurns_missing_user (legacy : List LegacyTurn)
    (h : ∃ t ∈ legacy, LegacyTurn.user t = none) (hb hf : List Turn) :
    migrateLegacyTurns legacy hb hf = none := by
  induction legacy generalizing hb hf with
  | nil => simp at h
  | cons t rest ih =>
    obtain ⟨x, hx, hxu⟩ := h
    rcases List.mem_cons.mp hx with rfl | hx2
    · simp [migrateLegacyTurns, hxu]
    · cases hu : t.user with
      | none => simp [migrateLegacyTurns, hu]
      | some u =>
        simp only [migrateLegacyTurns, hu]
        exact ih ⟨x, hx2, hxu⟩ _ _

/-- C6: with both per-target histories empty and legacy data present, each
legacy turn with a base field yields `{user := turn.user, assistant :=
turn.base}` in the base history and each with a finetuned field yields
`{user := turn.user, assistant := turn.finetuned}` in the finetuned history;
a legacy turn missing the user field fails fast. -/
theorem migration_maps_legacy (legacy : List LegacyTurn) :
    ((∀ t ∈ legacy, (LegacyTurn.user t).isSome) →
      displayMigration true legacy [] [] =
        some (migratedBase legacy, migratedFt legacy)) ∧
    ((∃ t ∈ legacy, LegacyTurn.user t = none) →
      displayMigration true legacy [] [] = none) := by
  constructor
  · intro h
    simpa [displayMigration] using migrateLegacyTurns_eq_migrated legacy h
  · intro h
    simpa [displayMigration] using migrateLegacyTurns_missing_user legacy h [] []

/-- Witness for C6 on the spec's end-to-end legacy example. -/
theorem migration_maps_legacy_witness :
    (∀ t ∈ [LegacyTurn.mk (some "hi") (some "hello!") (some "hey!")],
      (LegacyTurn.user t).isSome) ∧
    displayMigration true [LegacyTurn.mk (some "hi") (some "hello!") (some "hey!")]
        [] [] =
      some (migratedBase [LegacyTurn.mk (some "hi") (some "hello!") (some "hey!")],
        migratedFt [LegacyTurn.mk (some "hi") (some "hello!") (some "hey!")]) :=
  ⟨by decide,
    (migration_maps_legacy
      [LegacyTurn.mk (some "hi") (some "hello!") (some "hey!")]).1 (by decide)⟩

/-- C7: running the migration step a second time on the result of a first run
returns the histories unchanged: the guard fires only when both per-target
histories are empty, so no entry is duplicated and the outcome equals that of
a single run. -/
theorem migration_idempotent (legacy : List LegacyTurn)
    (r : List Turn × List Turn)
    (h : displayMigration true legacy [] [] = some r) :
    displayMigration true legacy r.1 r.2 = some r := by
  rcases r with ⟨rb, rf⟩
  cases rb with
  | nil =>
    cases rf with
    | nil => exact h
    | cons x xs => simp [displayMigration]
  | cons x xs => simp [displayMigration]

/-- Witness for C7 on the spec's end-to-end legacy example. -/
theorem migration_idempotent_witness :
    displayMigration true [LegacyTurn.mk (some "hi") (some "hello!") (some "hey!")]
        [] [] =
      some ([Turn.mk (some "hi") (some "hello!")],
        [Turn.mk (some "hi") (some "hey!")]) ∧
    displayMigration true [LegacyTurn.mk (some "hi") (some "hello!") (some "hey!")]
        ([Turn.mk (some "hi") (some "hello!")],
          [Turn.mk (some "hi") (some "hey!")]).1
        ([Turn.mk (some "hi") (some "hello!")],
          [Turn.mk (some "hi") (some "hey!")]).2 =
      some ([Turn.mk (some "hi") (some "hello!")],
        [Turn.mk (some "hi") (some "hey!")]) :=
  ⟨by decide,
    migration_idempotent [LegacyTurn.mk (some "hi") (some "hello!") (some "hey!")]
      ([Turn.mk (some "hi") (some "hello!")], [Turn.mk (some "hi") (some "hey!")])
      (by decide)⟩

/-- Helper: migrating a concatenation runs the loop on the first part and
continues on the second from the accumulated result. -/
theorem migrateLegacyTurns_append (l1 l2 : List LegacyTurn) (hb hf : List Turn) :
    migrateLegacyTurns (l1 ++ l2) hb hf =
      match migrateLegacyTurns l1 hb hf with
      | none => none
      | some r => migrateLegacyTurns l2 r.1 r.2 := by
  induction l1 generalizing hb hf with
  | nil => simp [migrateLegacyTurns]
  | cons t rest ih =>
    cases hu : t.user with
    | none => simp [migrateLegacyTurns, hu]
    | some u =>
      simp only [List.cons_append, migrateLegacyTurns, hu]
      exact ih _ _

/-- Helper: a legacy turn with a user field and neither base nor finetuned
field leaves both accumulated histories untouched. -/
theorem migrateLegacyTurns_cons_bare (u : String) (l : List LegacyTurn)
    (hb hf : List Turn) :
    migrateLegacyTurns (LegacyTurn.mk (some u) none none :: l) hb hf =
      migrateLegacyTurns l hb hf := rfl

/-- C10: a legacy turn with a user field but neither base nor finetuned field
is skipped silently — it contributes to neither history and raises no error —
and migration preserves the relative order of legacy turns within each
per-target history. -/
theorem migration_skips_bare_turn (l1 l2 : List LegacyTurn) (u : String) :
    migrateLegacyTurns (l1 ++ LegacyTurn.mk (some u) none none :: l2) [] [] =
      migrateLegacyTurns (l1 ++ l2) [] [] ∧
    ((∀ t ∈ l1 ++ l2, (LegacyTurn.user t).isSome) →
      migrateLegacyTurns (l1 ++ l2) [] [] =
        some (migratedBase l1 ++ migratedBase l2,
          migratedFt l1 ++ migratedFt l2)) := by
  constructor
  · rw [migrateLegacyTurns_append, migrateLegacyTurns_append]
    cases migrateLegacyTurns l1 [] [] with
    | none => rfl
    | some r => exact migrateLegacyTurns_cons_bare u l2 r.1 r.2
  · intro h
    have h1 : ∀ t ∈ l1, (LegacyTurn.user t).isSome :=
      fun x hx => h x (List.mem_append_left l2 hx)
    have h2 : ∀ t ∈ l2, (LegacyTurn.user t).isSome :=
      fun x hx => h x (List.mem_append_right l1 hx)
    rw [migrateLegacyTurns_append, migrateLegacyTurns_eq_migrated l1 h1]
    simp only
    rw [migrateLegacyTurns_acc, migrateLegacyTurns_eq_migrated l2 h2]
    rfl

/-- Witness for C10: a bare legacy turn between two full ones is dropped and
order is kept. -/
theorem migration_skips_bare_turn_witness :
    (∀ t ∈ [LegacyTurn.mk (some "a") (some "b1") none] ++
        [LegacyTurn.mk (some "c") none (some "f2")],
      (LegacyTurn.user t).isSome) ∧
    (migrateLegacyTurns ([LegacyTurn.mk (some "a") (some "b1") none] ++
          LegacyTurn.mk (some "x") none none ::
            [LegacyTurn.mk (some "c") none (some "f2")]) [] [] =
        migrateLegacyTurns ([LegacyTurn.mk (some "a") (some "b1") none] ++
          [LegacyTurn.mk (some "c") none (some "f2")]) [] [] ∧
      migrateLegacyTurns ([LegacyTurn.mk (some "a") (some "b1") none] ++
          [LegacyTurn.mk (some "c") none (some "f2")]) [] [] =
        some (migratedBase [LegacyTurn.mk (some "a") (some "b1") none] ++
            migratedBase [LegacyTurn.mk (some "c") none (some "f2")],
          migratedFt [LegacyTurn.mk (some "a") (some "b1") none] ++
            migratedFt [LegacyTurn.mk (some "c") none (some "f2")])) :=
  ⟨by decide,
    (migration_skips_bare_turn [LegacyTurn.mk (some "a") (some "b1") none]
      [LegacyTurn.mk (some "c") none (some "f2")] "x").1,
    (migration_skips_bare_turn [LegacyTurn.mk (some "a") (some "b1") none]
      [LegacyTurn.mk (some "c") none (some "f2")] "x").2 (by decide)⟩

/-- Helper: a per-target send leg either fails leaving the history untouched
or appends exactly one completed turn. -/
theorem sendToTarget_none_or_snoc (tok : Tokenizer)
    (generate : String → String → Option String) (target : String)
    (hist : List Turn) (msg : String) (useChatFormatting enableThinking : Bool) :
    sendToTarget tok generate target hist msg useChatFormatting enableThinking =
      none ∨
    ∃ seg asst,
      sendToTarget tok generate target hist msg useChatFormatting enableThinking =
        some (hist ++ [Turn.mk (some seg) (some asst)]) := by
  rw [sendToTarget]
  cases buildFormattedPromptAndUserSegment tok hist msg useChatFormatting
      enableThinking target with
  | none => exact Or.inl rfl
  | some pu =>
    dsimp only
    cases generate pu.1 target with
    | none => exact Or.inl rfl
    | some reply =>
      dsimp only
      cases stripPromptFromOutput tok reply pu.1 with
      | none => exact Or.inl rfl
      | some asst => exact Or.inr ⟨pu.2, asst, rfl⟩

/-- C2 counterexample: with a backend that succeeds for the base model and
raises for the finetuned model, sending `"hi"` to `"both"` from empty
histories propagates the error, yet the base history has been modified by the
already-completed base leg — the claim that both histories are left
unmodified for that send fails. -/
theorem send_both_failure_modifies_base_cex :
    (sendMessage charTok baseOnlyGen [] [] "both" "hi" false false).raised = true ∧
    (sendMessage charTok baseOnlyGen [] [] "both" "hi" false false).historyBase =
      [Turn.mk (some "hi") (some "!")] ∧
    (sendMessage charTok baseOnlyGen [] [] "both" "hi" false false).historyBase ≠
      [] := by
  refine ⟨by decide, by decide, by decide⟩

/-- C2 amended: when a send raises, the error propagates uncaught and no
history is left with a partial turn: the finetuned history is unmodified, and
the base history is either unmodified or — when the base leg completed before
a later failure — extended by exactly one fully populated turn. -/
theorem send_failure_per_target_atomic (tok : Tokenizer)
    (generate : String → String → Option String) (hb hf : List Turn)
    (sendTarget rawInput : String) (useChatFormatting enableThinking : Bool)
    (hr : (sendMessage tok generate hb hf sendTarget rawInput useChatFormatting
      enableThinking).raised = true) :
    (sendMessage tok generate hb hf sendTarget rawInput useChatFormatting
        enableThinking).historyFt = hf ∧
    ((sendMessage tok generate hb hf sendTarget rawInput useChatFormatting
        enableThinking).historyBase = hb ∨
      ∃ seg asst,
        (sendMessage tok generate hb hf sendTarget rawInput useChatFormatting
          enableThinking).historyBase = hb ++ [Turn.mk (some seg) (some asst)]) := by
  rw [sendMessage] at hr ⊢
  by_cases h0 : (pyStrip rawInput).length = 0
  · rw [if_pos h0]
    exact ⟨rfl, Or.inl rfl⟩
  · rw [if_neg h0] at hr ⊢
    by_cases h1 : sendTarget = "both" ∨ sendTarget = "base" ∨
        sendTarget = "finetuned"
    · rw [if_pos h1] at hr ⊢
      by_cases h2 : sendTarget = "both" ∨ sendTarget = "base"
      · rw [if_pos h2] at hr ⊢
        rcases sendToTarget_none_or_snoc tok generate "base" hb
            (pyStrip rawInput) useChatFormatting enableThinking with
          hN | ⟨seg, asst, hS⟩
        · rw [hN]
          exact ⟨rfl, Or.inl rfl⟩
        · rw [hS] at hr ⊢
          dsimp only at hr ⊢
          by_cases h3 : sendTarget = "both" ∨ sendTarget = "finetuned"
          · rw [if_pos h3] at hr ⊢
            cases hft : sendToTarget tok generate "finetuned" hf
                (pyStrip rawInput) useChatFormatting enableThinking with
            | none =>
              exact ⟨rfl, Or.inr ⟨seg, asst, rfl⟩⟩
            | some hf2 =>
              rw [hft] at hr
              simp at hr
          · rw [if_neg h3] at hr
            simp at hr
      · rw [if_neg h2] at hr ⊢
        dsimp only at hr ⊢
        by_cases h3 : sendTarget = "both" ∨ sendTarget = "finetuned"
        · rw [if_pos h3] at hr ⊢
          cases hft : sendToTarget tok generate "finetuned" hf
              (pyStrip rawInput) useChatFormatting enableThinking with
          | none =>
            exact ⟨rfl, Or.inl rfl⟩
          | some hf2 =>
            rw [hft] at hr
            simp at hr
        · rw [if_neg h3] at hr
          simp at hr
    · rw [if_neg h1]
      exact ⟨rfl, Or.inl rfl⟩

/-- Witness for the amended C2: a backend that always raises on a
base-targeted send leaves both histories untouched. -/
theorem send_failure_per_target_atomic_witness :
    (sendMessage charTok failingGen [] [] "base" "hi" false false).raised = true ∧
    ((sendMessage charTok failingGen [] [] "base" "hi" false false).historyFt =
        [] ∧
      ((sendMessage charTok failingGen [] [] "base" "hi" false
          false).historyBase = [] ∨
        ∃ seg asst,
          (sendMessage charTok failingGen [] [] "base" "hi" false
            false).historyBase = [] ++ [Turn.mk (some seg) (some asst)])) :=
  ⟨by decide,
    send_failure_per_target_atomic charTok failingGen [] [] "base" "hi"
      false false (by decide)⟩

end DualChat
